import Mathlib

/-!
Verification of the MicroPython backend protocol engine
(`thonny/plugins/micropython/backend.py` and `os_backend.py`).

The Python code is shallowly embedded: pure fragments become Lean functions,
stateful fragments thread explicit state, and interactions with the external
world (the byte channel supplied by the environment, the host `os.path`
library, the device-side interpreter, `ast.literal_eval`) are parameters of
the embedded functions.  Strings are modelled as Lean `String`s, byte strings
as `List Nat`, and wall-clock time as natural numbers of milliseconds.
-/

namespace ThonnyMP

/-! ## Evaluator (`_evaluate` and `_handle_bad_output`) -/

/-- Marker byte `MGMT_VALUE_START = b"\x02"` decoded as a character. -/
def MGMT_VALUE_START_CHAR : Char := Char.ofNat 2

/-- Splitting at the last occurrence of a separator character, mirroring
Python's `s.rsplit(sep, maxsplit=1)`: returns `none` when the separator does
not occur (in the source this case is guarded by the preceding
`MGMT_VALUE_START ... not in out` check), otherwise the pair of the text
before and after the last occurrence. -/
def rsplitLast (sep : Char) : List Char → Option (List Char × List Char)
  | [] => none
  | c :: rest =>
    match rsplitLast sep rest with
    | some (b, a) => some (c :: b, a)
    | none => if c = sep then some ([], rest) else none

/-- Diagnostic dump emitted by `_handle_bad_output(script, out, err)`: the
list of strings written to the stderr stream, in order. -/
def handle_bad_output (script out err : String) : List String :=
  [ "PROBLEM WITH INTERNAL MANAGEMENT COMMAND\n"
  , "COMMAND:\n" ++ script ++ "\n"
  , "STDOUT:\n" ++ out ++ "\n"
  , "STDERR:\n" ++ err ++ "\n" ]

/-- How `ast.literal_eval` can fail: `SyntaxError` (the payload does not
even parse) or `ValueError` ("malformed node or string": the payload parses
but is not a literal). -/
inductive LitErr where
  | syntaxError
  | valueError
  deriving DecidableEq, Repr

/-- Result of `_evaluate`: a structured value parsed from the management
payload; no value together with the diagnostic dump produced by
`_handle_bad_output` (the Python function returns `None` in that case); or
an uncaught exception propagating out of `_evaluate` (the source wraps
`ast.literal_eval` in `try ... except SyntaxError` only, so a `ValueError`
escapes). -/
inductive EvalResult (V : Type) where
  | value (v : V)
  | badOutput (dump : List String)
  | raised
  deriving DecidableEq, Repr

/-- Post-execution part of `_evaluate`: given the captured stdout and stderr
of the (already wrapped) script, decide between parsing the management value
and dumping diagnostics.  `litEval` models `ast.literal_eval` with its two
failure modes; only `SyntaxError` is caught and turned into the
`_handle_bad_output` dump — a `ValueError` (payload parses but is not a
literal) propagates uncaught (`.raised`), with no dump.  The second
component is the list of warnings logged for unexpected side output before
the last marker. -/
def evaluateCaptured {V : Type} (litEval : String → Except LitErr V)
    (script out err : String) : EvalResult V × List String :=
  if err ≠ "" then
    (.badOutput (handle_bad_output script out err), [])
  else
    match rsplitLast MGMT_VALUE_START_CHAR out.data with
    | none => (.badOutput (handle_bad_output script out err), [])
    | some (side_effects, value_str) =>
      let warnings :=
        if side_effects ≠ [] then
          ["Unexpected output from MP evaluate:\n" ++ String.mk side_effects]
        else []
      match litEval (String.mk value_str) with
      | .ok v => (.value v, warnings)
      | .error .syntaxError => (.badOutput (handle_bad_output script out err), warnings)
      | .error .valueError => (.raised, warnings)

/-! ## Byte channel and input submission (`_submit_input`) -/

/-- Modelled from the spec: the Byte Channel is an external collaborator
("duplex byte stream with `write(bytes)`, `read(n)→bytes|timeout`,
`unread(bytes)`"); its concrete implementation is not part of the analysed
sources.  `incoming` is the read buffer, `written` the sequence of byte
strings passed to `write`. -/
structure Channel where
  incoming : List Nat
  written : List (List Nat)
  deriving DecidableEq, Repr

/-- Modelled from the spec: `write(bytes)` records the transmitted bytes. -/
def Channel.write (c : Channel) (bs : List Nat) : Channel :=
  { c with written := c.written ++ [bs] }

/-- Modelled from the spec: `read(n)` returns exactly `n` bytes from the
read buffer, or times out (`none`) when fewer are available. -/
def Channel.read (c : Channel) (n : Nat) : Option (List Nat × Channel) :=
  if n ≤ c.incoming.length then
    some (c.incoming.take n, { c with incoming := c.incoming.drop n })
  else
    none

/-- Modelled from the spec: `unread(bytes)` pushes bytes back onto the
front of the read buffer "so they are not lost to later consumers". -/
def Channel.unread (c : Channel) (bs : List Nat) : Channel :=
  { c with incoming := bs ++ c.incoming }

/-- Byte value of `"\n"`. -/
def LF : Nat := 10

/-- Byte value of `"\r"`. -/
def CR : Nat := 13

/-- CRLF normalisation step of `_submit_input`: the submission is asserted
to end with `"\n"`; if it does not already end with `"\r\n"` the final
`"\n"` is replaced by `"\r\n"`.  (UTF-8 keeps the line-ending bytes
unchanged, so the string manipulation is modelled directly on bytes.) -/
def normalizeToCRLF (cdata : List Nat) : List Nat :=
  if cdata.drop (cdata.length - 2) = [CR, LF] then cdata
  else cdata.dropLast ++ [CR, LF]

/-- Warnings logged by `_submit_input`. -/
inductive SubmitLog where
  | warnTimeout
  | warnMismatch (expected got : List Nat)
  deriving DecidableEq, Repr

/-- Embedding of `_submit_input`: normalise to CRLF, write the bytes, read
back exactly as many bytes as were written; a timeout leaves things as they
are, a matching echo is silently discarded, a mismatched echo is logged and
pushed back with `unread`. -/
def submit_input (cdata : List Nat) (c : Channel) : Channel × List SubmitLog :=
  let bdata := normalizeToCRLF cdata
  let c1 := c.write bdata
  match c1.read bdata.length with
  | none => (c1, [.warnTimeout])
  | some (echo, c2) =>
    if echo = bdata then (c2, [])
    else (c2.unread echo, [.warnMismatch bdata echo])

/-! ## Inline progress throttling (`_check_send_inline_progress`) -/

/-- The `_progress_times` dictionary: association list from command id to
the wall-clock time (ms) of the last sent notification. -/
def ProgressMap : Type := List (String × Nat)

instance : DecidableEq ProgressMap := by
  unfold ProgressMap; infer_instance

/-- Lookup mirroring `self._progress_times.get(cmd["id"], 0)`. -/
def progressGet (pm : ProgressMap) (k : String) : Nat :=
  match pm.find? (fun p => p.1 = k) with
  | some p => p.2
  | none => 0

/-- Update mirroring `self._progress_times[cmd["id"]] = time.time()`. -/
def progressSet (pm : ProgressMap) (k : String) (t : Nat) : ProgressMap :=
  match pm with
  | [] => [(k, t)]
  | p :: rest => if p.1 = k then (k, t) :: rest else p :: progressSet rest k t

/-- Embedding of `_check_send_inline_progress` for one call: given the
current map, command id, value, maximum and current time (ms), returns the
updated map and whether an `InlineProgress` event was sent.  The source
skips the notification iff `value != maximum and time.time() - prev < 0.2`
(0.2 s = 200 ms). -/
def check_send_inline_progress (pm : ProgressMap) (id_ : String)
    (value maximum now : Nat) : ProgressMap × Bool :=
  let prev := progressGet pm id_
  if value ≠ maximum ∧ now - prev < 200 then
    (pm, false)
  else
    (progressSet pm id_ now, true)

/-- Running a sequence of progress calls `(now, value)` for one command id,
collecting the per-call "notified" flags. -/
def runProgressCalls (id_ : String) (maximum : Nat) :
    List (Nat × Nat) → ProgressMap → ProgressMap × List Bool
  | [], pm => (pm, [])
  | (now, v) :: rest, pm =>
    let r := check_send_inline_progress pm id_ v maximum now
    let r2 := runProgressCalls id_ maximum rest r.1
    (r2.1, r.2 :: r2.2)

/-! ## File transfer (`_cmd_download`, `_cmd_upload`) -/

/-- A file discovered by enumeration: `{"path": ..., "size": ...,
"original_context": ...}`. -/
structure FileRec where
  path : String
  size : Nat
  original_context : String
  deriving DecidableEq, Repr

/-- An entry of `download_items`/`upload_items`:
`dict(source=..., target=..., size=...)`. -/
structure TransferItem where
  source : String
  target : String
  size : Nat
  deriving DecidableEq, Repr

/-- The fields of a `download`/`upload` command used by the handlers. -/
structure TransferCmd where
  source_paths : List String
  target_dir : String
  allow_overwrite : Bool
  description : String
  id : String
  deriving DecidableEq, Repr

/-- Prefix test on character lists. -/
def isPrefixCharList : List Char → List Char → Bool
  | [], _ => true
  | _ :: _, [] => false
  | a :: as, b :: bs => a = b && isPrefixCharList as bs

/-- Python `s.startswith(pre)`. -/
def strStartsWith (s pre : String) : Bool :=
  isPrefixCharList pre.data s.data

/-- Python `s.endswith(suf)`. -/
def strEndsWith (s suf : String) : Bool :=
  isPrefixCharList suf.data.reverse s.data.reverse

/-- Python `s.rstrip(ch)` for a single strip character. -/
def rstripChar (ch : Char) (s : String) : String :=
  String.mk ((s.data.reverse.dropWhile (fun c => c = ch)).reverse)

/-- Python `s.strip(ch)` for a single strip character. -/
def stripChar (ch : Char) (s : String) : String :=
  String.mk (((s.data.dropWhile (fun c => c = ch)).reverse.dropWhile
    (fun c => c = ch)).reverse)

/-- The common per-file computation
`file["path"][len(file["original_context"]):].strip("/").strip("\\")`. -/
def pathSuffix (f : FileRec) : String :=
  stripChar '\\' (stripChar '/' (String.mk (f.path.data.drop f.original_context.length)))

/-- Embedding of `to_remote_path`: `path.replace("\\", "/")`. -/
def to_remote_path (p : String) : String :=
  String.mk (p.data.map (fun c => if c = '\\' then '/' else c))

/-- Embedding of `_join_remote_path_parts`.  (The `left == ""` branch in the
source also asserts that the device has no directory support; given the
asserts at the top of `_cmd_upload` that inner assert cannot fire, so it is
not modelled separately.) -/
def join_remote_path_parts (left right : String) : String :=
  if left = "" then stripChar '/' right
  else rstripChar '/' left ++ "/" ++ stripChar '/' right

/-- Building `download_items`: each loop iteration asserts
`file["path"].startswith(file["original_context"])` (`none` models the
`AssertionError`) and computes the target path.  `normJoin a b` models the
host-library call `os.path.join(a, os.path.normpath(b))`. -/
def downloadItems (normJoin : String → String → String) (target_dir : String) :
    List FileRec → Option (List TransferItem)
  | [] => some []
  | f :: rest =>
    if strStartsWith f.path f.original_context then
      (downloadItems normJoin target_dir rest).map
        (fun items => { source := f.path, target := normJoin target_dir (pathSuffix f),
                        size := f.size } :: items)
    else none

/-- Building `upload_items`, with the same per-file assert; the target is
`self._join_remote_path_parts(target_dir, to_remote_path(path_suffix))`. -/
def uploadItems (target_dir : String) : List FileRec → Option (List TransferItem)
  | [] => some []
  | f :: rest =>
    if strStartsWith f.path f.original_context then
      (uploadItems target_dir rest).map
        (fun items => { source := f.path,
                        target := join_remote_path_parts target_dir (to_remote_path (pathSuffix f)),
                        size := f.size } :: items)
    else none

/-- Modelled from the device script in `_get_existing_remote_files`: the
injected loop appends, in order, every path whose `os.stat`/`os.size` call
does not raise `OSError`; `remoteExists` models "the stat call succeeds". -/
def get_existing_remote_files (remoteExists : String → Bool) (paths : List String) :
    List String :=
  paths.filter remoteExists

/-- Result of running a transfer command handler. -/
inductive TransferOutcome where
  /-- One of the `assert` statements before the transfer loop failed. -/
  | precondFailed
  /-- The collision response
  `{existing_files, source_paths, target_dir, description}`. -/
  | collision (existing_files source_paths : List String)
      (target_dir description : String)
  /-- All files transferred; the per-file transfer invocations in order. -/
  | completed (invocations : List (String × String))
  /-- `assert written_bytes == item["size"]` failed after the last recorded
  invocation; the loop stops there. -/
  | assertFailed (invocations : List (String × String))
  deriving DecidableEq, Repr

/-- The per-file transfer operations that a transfer outcome actually
invoked (`_download_file`/`_upload_file` calls, as (source, target)). -/
def TransferOutcome.invocations : TransferOutcome → List (String × String)
  | .precondFailed => []
  | .collision _ _ _ _ => []
  | .completed inv => inv
  | .assertFailed inv => inv

/-- The per-file loop shared by `_cmd_download` and `_cmd_upload`:
files are processed one at a time, in order; after each file the written
byte count (given by the environment `transferFile`) is asserted equal to
the item's size; on a mismatch the assertion aborts the loop.  Returns the
invocations made and whether the loop ran to completion. -/
def runTransferLoop (transferFile : String → String → Nat) :
    List TransferItem → List (String × String) × Bool
  | [] => ([], true)
  | it :: rest =>
    let written := transferFile it.source it.target
    if written = it.size then
      let r := runTransferLoop transferFile rest
      ((it.source, it.target) :: r.1, r.2)
    else
      ([(it.source, it.target)], false)

/-- Embedding of `_cmd_download`.  `normJoin` models the host
`os.path.join`/`normpath` combination, `pathExists` models
`os.path.exists`, `transferFile` gives the byte count actually written by
`self._download_file`, `remote_files` is the enumeration result, `now` the
current wall-clock time (ms) and `pm` the `_progress_times` state. -/
def cmd_download (normJoin : String → String → String) (pathExists : String → Bool)
    (transferFile : String → String → Nat) (remote_files : List FileRec)
    (cmd : TransferCmd) (now : Nat) (pm : ProgressMap) :
    TransferOutcome × ProgressMap :=
  let target_dir := rstripChar '\\' (rstripChar '/' cmd.target_dir)
  match downloadItems normJoin target_dir remote_files with
  | none => (.precondFailed, pm)
  | some items =>
    let total_size := (remote_files.map FileRec.size).sum
    let targets := items.map TransferItem.target
    let existing_files := targets.filter pathExists
    if ¬cmd.allow_overwrite ∧ existing_files ≠ [] then
      (.collision existing_files cmd.source_paths cmd.target_dir cmd.description, pm)
    else
      let r1 := check_send_inline_progress pm cmd.id 0 total_size now
      let r2 := runTransferLoop transferFile items
      (if r2.2 then .completed r2.1 else .assertFailed r2.1, r1.1)

/-- Embedding of `_cmd_upload`.  `supportsDirs` models
`self._supports_directories()`, `remoteExists` the device-side stat probe of
`_get_existing_remote_files`, the rest as in `cmd_download`. -/
def cmd_upload (supportsDirs : Bool) (remoteExists : String → Bool)
    (transferFile : String → String → Nat) (local_files : List FileRec)
    (cmd : TransferCmd) (now : Nat) (pm : ProgressMap) :
    TransferOutcome × ProgressMap :=
  let target_dir := cmd.target_dir
  if ¬((strStartsWith target_dir "/" ∨ ¬supportsDirs) ∧
       (¬strEndsWith target_dir "/" ∨ target_dir = "/")) then
    (.precondFailed, pm)
  else
    match uploadItems target_dir local_files with
    | none => (.precondFailed, pm)
    | some items =>
      let targets := items.map TransferItem.target
      let existing_files := get_existing_remote_files remoteExists targets
      if ¬cmd.allow_overwrite ∧ existing_files ≠ [] then
        (.collision existing_files cmd.source_paths cmd.target_dir cmd.description, pm)
      else
        let total_size := (items.map TransferItem.size).sum
        let r1 := check_send_inline_progress pm cmd.id 0 total_size now
        let r2 := runTransferLoop transferFile items
        (if r2.2 then .completed r2.1 else .assertFailed r2.1, r1.1)

/-! ## Command reader (`_read_commands`,
`_interrupt_in_command_reading_thread`) -/

/-- Parsed commands arriving on the control input stream (the result of
`parse_message` on each line; end of stream terminates the loop and is
modelled by the end of the input list). -/
inductive InCmd where
  | interrupt
  | inputSubmission (data : String)
  | eofCmd
  | toplevel (name : String)
  deriving DecidableEq, Repr

/-- Observable effects of the command-reading thread. -/
inductive ReaderEffect where
  | lockAcquire
  | lockRelease
  | devWrite (bs : List Nat)
  | sleepMs (n : Nat)
  | enqueue (c : InCmd)
  deriving DecidableEq, Repr

/-- The interrupt byte sequence `INTERRUPT_CMD = b"\x03"`. -/
def INTERRUPT_CMD : List Nat := [3]

/-- Embedding of `_interrupt_in_command_reading_thread`: under the writer
lock, write the interrupt bytes three times with 0.1 s sleeps in between. -/
def interrupt_in_command_reading_thread : List ReaderEffect :=
  [.lockAcquire, .devWrite INTERRUPT_CMD, .sleepMs 100, .devWrite INTERRUPT_CMD,
   .sleepMs 100, .devWrite INTERRUPT_CMD, .lockRelease]

/-- Embedding of the `_read_commands` loop: an `InterruptCommand` is handled
right away in the reading thread, every other command is put on the command
queue. -/
def read_commands : List InCmd → List ReaderEffect
  | [] => []
  | c :: rest =>
    (match c with
     | .interrupt => interrupt_in_command_reading_thread
     | c2 => [.enqueue c2]) ++ read_commands rest

/-- Whether a parsed command is the priority interrupt command. -/
def isInterrupt : InCmd → Bool
  | .interrupt => true
  | _ => false

/-- The commands a reader trace put on the command queue, in order. -/
def queuedCmds (tr : List ReaderEffect) : List InCmd :=
  tr.filterMap (fun e => match e with | .enqueue c => some c | _ => none)

/-- How many times a reader trace wrote the interrupt byte sequence. -/
def interruptWriteCount : List ReaderEffect → Nat
  | [] => 0
  | .devWrite bs :: rest =>
    (if bs = INTERRUPT_CMD then 1 else 0) + interruptWriteCount rest
  | _ :: rest => interruptWriteCount rest

/-- How many interrupt commands an input stream contains. -/
def interruptCount : List InCmd → Nat
  | [] => 0
  | c :: rest => (if isInterrupt c then 1 else 0) + interruptCount rest

/-! ## Command dispatch (`handle_command`) and `_cmd_cd` validation -/

/-- The exceptions `handle_command` distinguishes. -/
inductive RaisedKind where
  | userError (msg : String)
  | systemExit
  | keyboardInterrupt
  | protocolError (msg captured : String)
  | otherException (descr : String)
  deriving DecidableEq, Repr

/-- What a command handler did: returned a result mapping, returned `False`
(suppress the response), or raised. -/
inductive HandlerOutcome where
  | ok (fields : List (String × String))
  | suppress
  | raised (k : RaisedKind)
  deriving DecidableEq, Repr

/-- The value put in a Response's `error` field: either a plain message
string, or the string produced by `traceback.format_exc()` for the given
exception (a rendered stack trace ending in the exception text). -/
inductive ErrVal where
  | msg (s : String)
  | traceback (k : RaisedKind)
  deriving DecidableEq, Repr

/-- The Response record assembled by `handle_command` (Toplevel and Inline
responses share these fields; the category tag plays no role in the claims
and is omitted). -/
structure Response where
  command_name : String
  error : Option ErrVal := none
  interrupted : Bool := false
  systemExitFlag : Bool := false
  context_info : Option String := none
  fields : List (String × String) := []
  command_id : Option String := none
  deriving DecidableEq, Repr

/-- Embedding of `handle_command`: dispatches on the handler lookup result
and the handler's outcome, producing the emitted Response (or `none` when
the handler returned `False`) and the strings written to the stderr
stream.  `create_error_response` defaults the `error` field to
`traceback.format_exc()` whenever the caller does not pass one
explicitly. -/
def handle_command (name : String) (cmdId : Option String)
    (handler : Option HandlerOutcome) : Option Response × List String :=
  let finish : Response → Option Response := fun r =>
    some (if cmdId.isSome ∧ r.command_id = none then { r with command_id := cmdId } else r)
  match handler with
  | none =>
    (finish { command_name := name, error := some (.msg ("Unknown command: " ++ name)) }, [])
  | some (.ok fields) => (finish { command_name := name, fields := fields }, [])
  | some .suppress => (none, [])
  | some (.raised (.userError m)) =>
    (finish { command_name := name, error := some (.traceback (.userError m)) },
     [m ++ "\n"])
  | some (.raised .systemExit) =>
    (finish { command_name := name, error := some (.traceback .systemExit),
              systemExitFlag := true }, [])
  | some (.raised .keyboardInterrupt) =>
    (finish { command_name := name, error := some (.msg "Interrupted"),
              interrupted := true }, [])
  | some (.raised (.protocolError m cap)) =>
    (finish { command_name := name, error := some (.msg m) },
     ["THONNY FAILED TO EXECUTE " ++ name ++ " (" ++ m ++ ")\n",
      "CAPTURED DATA: " ++ cap ++ "\n",
      "TRYING TO RECOVER ...\n"])
  | some (.raised (.otherException d)) =>
    (finish { command_name := name, error := some (.traceback (.otherException d)),
              context_info := some "other unhandled exception" },
     ["PROBLEM WITH THONNY'S BACK-END:\n"])

/-- Embedding of `MicroPythonOsBackend._cmd_cd`'s argument validation: with
exactly one argument the handler performs the device-side directory change
and cwd refetch (external side effects) and returns `{}`; otherwise it
raises `UserError("%cd takes one parameter")`. -/
def cmd_cd (args : List String) : HandlerOutcome :=
  if args.length = 1 then .ok []
  else .raised (.userError "%cd takes one parameter")

/-! ## Remote file enumeration (`_list_remote_files_with_info`) -/

/-- The management scripts `_list_remote_files_with_info` executes: the two
helper-definition scripts at the start and the `del __thonny_getsize; del
__thonny_isdir; del __thonny_rec_list_with_size` cleanup script at the
end. -/
inductive RemoteScript where
  | statHelperDefs
  | recListHelperDef
  | helperCleanup
  deriving DecidableEq, Repr

/-- Observable device interactions of `_list_remote_files_with_info`. -/
inductive RemoteEvent where
  | execScript (s : RemoteScript)
  | evalListQuery (path : String)
  deriving DecidableEq, Repr

/-- Python's `os.path.dirname` for POSIX paths. -/
def posixDirname (p : String) : String :=
  match rsplitLast '/' p.data with
  | none => ""
  | some (before, _) =>
    let head := before ++ ['/']
    if head.all (fun c => c = '/') then String.mk head
    else String.mk ((head.reverse.dropWhile (fun c => c = '/')).reverse)

/-- Code-point comparison of Python string sort keys. -/
def charListLt : List Char → List Char → Bool
  | [], [] => false
  | [], _ :: _ => true
  | _ :: _, [] => false
  | a :: as, b :: bs =>
    if a.val < b.val then true
    else if b.val < a.val then false
    else charListLt as bs

/-- Stable insertion used to model `result.sort(key=lambda rec: rec["path"])`. -/
def insertByPath (x : FileRec) : List FileRec → List FileRec
  | [] => [x]
  | y :: ys => if charListLt x.path.data y.path.data then x :: y :: ys
               else y :: insertByPath x ys

/-- Stable sort of the enumeration result by path. -/
def sortByPath : List FileRec → List FileRec
  | [] => []
  | x :: xs => insertByPath x (sortByPath xs)

/-- The per-root loop of `_list_remote_files_with_info`: evaluates
`__thonny_rec_list_with_size(path)` once per requested path.  `evalList`
models the Evaluator call; `none` models an exception (for example a
`ProtocolError`), which propagates and aborts the loop. -/
def remoteListLoop (evalList : String → Option (List (String × Nat))) :
    List String → List RemoteEvent × Option (List FileRec)
  | [] => ([], some [])
  | p :: rest =>
    match evalList p with
    | none => ([.evalListQuery p], none)
    | some sizes =>
      let recs := sizes.map (fun sp =>
        { path := sp.1, size := sp.2, original_context := posixDirname p : FileRec })
      let r := remoteListLoop evalList rest
      (.evalListQuery p :: r.1, r.2.map (fun tail => recs ++ tail))

/-- Embedding of `_list_remote_files_with_info`: define the helpers, run the
per-root loop, sort the aggregate, then execute the cleanup script.  Returns
the trace of device interactions and the result (`none` when an evaluation
raised and the exception propagated). -/
def list_remote_files_with_info (evalList : String → Option (List (String × Nat)))
    (paths : List String) : List RemoteEvent × Option (List FileRec) :=
  let r := remoteListLoop evalList paths
  match r.2 with
  | none =>
    (.execScript .statHelperDefs :: .execScript .recListHelperDef :: r.1, none)
  | some recs =>
    (.execScript .statHelperDefs :: .execScript .recListHelperDef :: r.1
       ++ [.execScript .helperCleanup],
     some (sortByPath recs))

/-! ## Writer-lock serialization (`_interrupt_in_command_reading_thread`
versus `_submit_input`)

The two threads that write to the transport are modelled as straight-line
action lists; a transport write of a byte string is byte-granular at the
transport level (the lock, not the write call, is what keeps the bytes of
one logical sender together).  A scheduler interleaves the two threads; a
schedule step is only enabled when the lock discipline allows it. -/

/-- Low-level actions of a transport-writing thread: acquire or release the
writer lock, emit one byte on the transport, or an internal action that
takes time but emits nothing (a `time.sleep` or the echo read). -/
inductive LAct where
  | acq
  | rel
  | emit (b : Nat)
  | pause
  deriving DecidableEq, Repr

/-- A critical section: the body bracketed by `with self._writing_lock`. -/
def critical (body : List LAct) : List LAct :=
  LAct.acq :: body ++ [LAct.rel]

/-- The locked body of `_interrupt_in_command_reading_thread`: three writes
of `INTERRUPT_CMD` (one byte `0x03` each) with sleeps in between. -/
def interruptBody : List LAct :=
  [.emit 3, .pause, .emit 3, .pause, .emit 3]

/-- The actions of `_interrupt_in_command_reading_thread`. -/
def interruptLockCode : List LAct := critical interruptBody

/-- The locked body of `_submit_input`: the byte-granular transmission of
`bdata` followed by the echo read. -/
def submitBody (bdata : List Nat) : List LAct :=
  bdata.map LAct.emit ++ [.pause]

/-- The actions of `_submit_input`'s critical section. -/
def submitLockCode (bdata : List Nat) : List LAct := critical (submitBody bdata)

/-- Joint state of the two writers: the remaining actions of the interrupt
thread (`r0`) and of the submitting thread (`r1`), the lock holder (`true`
is the interrupt thread), and the transport trace of emitted bytes tagged
with their sender. -/
structure LSys where
  r0 : List LAct
  r1 : List LAct
  lock : Option Bool
  tr : List (Bool × Nat)
  deriving DecidableEq, Repr

/-- The remaining actions of a thread. -/
def LSys.rem (s : LSys) (who : Bool) : List LAct :=
  if who then s.r0 else s.r1

/-- Replacing the remaining actions of a thread. -/
def LSys.setRem (s : LSys) (who : Bool) (r : List LAct) : LSys :=
  if who then { s with r0 := r } else { s with r1 := r }

/-- Executing one enabled action of thread `who`; `none` when the thread is
finished or its next action is not enabled (acquiring a held lock,
releasing a lock it does not hold). -/
def lstep (who : Bool) (s : LSys) : Option LSys :=
  match s.rem who with
  | [] => none
  | a :: rest =>
    match a with
    | .acq =>
      match s.lock with
      | none => some ({ s.setRem who rest with lock := some who })
      | some _ => none
    | .rel =>
      if s.lock = some who then some ({ s.setRem who rest with lock := none })
      else none
    | .emit b => some ({ s.setRem who rest with tr := s.tr ++ [(who, b)] })
    | .pause => some (s.setRem who rest)

/-- Running a schedule (the sequence of thread choices); `none` when some
scheduled step was not enabled. -/
def lrun : List Bool → LSys → Option LSys
  | [], s => some s
  | w :: ws, s =>
    match lstep w s with
    | none => none
    | some s2 => lrun ws s2

/-- The bytes a list of actions emits, tagged with the sender. -/
def emitsOf (who : Bool) : List LAct → List (Bool × Nat)
  | [] => []
  | .emit b :: rest => (who, b) :: emitsOf who rest
  | _ :: rest => emitsOf who rest

/-- A body with no lock operations (both critical-section bodies
qualify). -/
def lockFreeBody (body : List LAct) : Prop :=
  ∀ a ∈ body, a ≠ LAct.acq ∧ a ≠ LAct.rel

/-- Progress of one thread through `critical body`: not yet started, `k`
body actions done while holding the lock, or finished. -/
inductive LPhase where
  | ns
  | mid (k : Nat)
  | done
  deriving DecidableEq, Repr

/-- The remaining actions corresponding to a phase. -/
def remOfPhase (body : List LAct) : LPhase → List LAct
  | .ns => critical body
  | .mid k => body.drop k ++ [LAct.rel]
  | .done => []

/-- Phase sanity: a mid phase is within the body. -/
def phaseOk (body : List LAct) : LPhase → Prop
  | .mid k => k ≤ body.length
  | _ => True

/-- Lock state determined by the two phases; two mid phases are
impossible. -/
def lockOfPhases : LPhase → LPhase → Option Bool → Prop
  | .mid _, .mid _, _ => False
  | .mid _, .ns, l => l = some true
  | .mid _, .done, l => l = some true
  | .ns, .mid _, l => l = some false
  | .done, .mid _, l => l = some false
  | .ns, .ns, l => l = none
  | .ns, .done, l => l = none
  | .done, .ns, l => l = none
  | .done, .done, l => l = none

/-- The transport trace determined by the two phases: a thread's bytes form
a contiguous block, partial blocks belong to the lock holder, and when both
threads are done the two complete blocks appear in one of the two orders. -/
def trOfPhases (b0 b1 : List LAct) : LPhase → LPhase → List (Bool × Nat) → Prop
  | .ns, .ns, tr => tr = []
  | .mid k, .ns, tr => tr = emitsOf true (b0.take k)
  | .done, .ns, tr => tr = emitsOf true b0
  | .ns, .mid k, tr => tr = emitsOf false (b1.take k)
  | .ns, .done, tr => tr = emitsOf false b1
  | .mid k, .done, tr => tr = emitsOf false b1 ++ emitsOf true (b0.take k)
  | .done, .mid k, tr => tr = emitsOf true b0 ++ emitsOf false (b1.take k)
  | .done, .done, tr =>
    tr = emitsOf true b0 ++ emitsOf false b1 ∨
    tr = emitsOf false b1 ++ emitsOf true b0
  | .mid _, .mid _, _ => False

/-- The mutual-exclusion invariant of the two-writer system. -/
def LInv (b0 b1 : List LAct) (s : LSys) : Prop :=
  ∃ p0 p1, phaseOk b0 p0 ∧ phaseOk b1 p1 ∧
    s.r0 = remOfPhase b0 p0 ∧ s.r1 = remOfPhase b1 p1 ∧
    lockOfPhases p0 p1 s.lock ∧ trOfPhases b0 b1 p0 p1 s.tr

/-- Initial state of the race: an interrupt issued while a submission is
pending. -/
def initLSys (bdata : List Nat) : LSys :=
  { r0 := interruptLockCode, r1 := submitLockCode bdata, lock := none, tr := [] }

/-! ## Theorems -/

/-- C1 counterexample: with empty stderr and the marker present, a payload
that parses but is not a literal — here `"foo"`, on which `ast.literal_eval`
raises `ValueError`, caught nowhere in `_evaluate` — makes the exception
propagate: no structured value is returned, but no diagnostic dump is
emitted either, contrary to the claim. -/
theorem C1_counterexample :
    (evaluateCaptured
        (fun s => if s = "foo" then (Except.error LitErr.valueError : Except LitErr Nat)
          else Except.error LitErr.syntaxError)
        "mgmt" (String.mk ['x', MGMT_VALUE_START_CHAR, 'f', 'o', 'o']) "").1 =
      EvalResult.raised ∧
    (evaluateCaptured
        (fun s => if s = "foo" then (Except.error LitErr.valueError : Except LitErr Nat)
          else Except.error LitErr.syntaxError)
        "mgmt" (String.mk ['x', MGMT_VALUE_START_CHAR, 'f', 'o', 'o']) "").1 ≠
      EvalResult.badOutput
        (handle_bad_output "mgmt" (String.mk ['x', MGMT_VALUE_START_CHAR, 'f', 'o', 'o']) "") := by
  constructor
  · decide
  · decide

/-- C1 (amended): for every script evaluated via `_evaluate`, nonempty
captured stderr, a missing management marker in the captured stdout, or a
payload on which the literal parser raises `SyntaxError` yield no
structured value and the `_handle_bad_output` diagnostic dump (which
contains the script, the stdout and the stderr); a payload that parses but
is not a literal makes `ast.literal_eval` raise an uncaught `ValueError` —
no structured value and no dump, the exception propagates to the dispatch
loop; otherwise the structured value parsed from the payload after the
last marker is returned. -/
theorem C1_amended (V : Type) (litEval : String → Except LitErr V)
    (script out err : String) :
    (err ≠ "" →
      (evaluateCaptured litEval script out err).1 =
        .badOutput (handle_bad_output script out err)) ∧
    (rsplitLast MGMT_VALUE_START_CHAR out.data = none →
      (evaluateCaptured litEval script out err).1 =
        .badOutput (handle_bad_output script out err)) ∧
    (∀ side payload, err = "" →
      rsplitLast MGMT_VALUE_START_CHAR out.data = some (side, payload) →
      litEval (String.mk payload) = .error .syntaxError →
      (evaluateCaptured litEval script out err).1 =
        .badOutput (handle_bad_output script out err)) ∧
    (∀ side payload, err = "" →
      rsplitLast MGMT_VALUE_START_CHAR out.data = some (side, payload) →
      litEval (String.mk payload) = .error .valueError →
      (evaluateCaptured litEval script out err).1 = .raised) ∧
    (∀ side payload v, err = "" →
      rsplitLast MGMT_VALUE_START_CHAR out.data = some (side, payload) →
      litEval (String.mk payload) = .ok v →
      (evaluateCaptured litEval script out err).1 = .value v) ∧
    ("COMMAND:\n" ++ script ++ "\n") ∈ handle_bad_output script out err ∧
    ("STDOUT:\n" ++ out ++ "\n") ∈ handle_bad_output script out err ∧
    ("STDERR:\n" ++ err ++ "\n") ∈ handle_bad_output script out err := by
  refine ⟨?_, ?_, ?_, ?_, ?_, ?_, ?_, ?_⟩
  · intro h
    simp [evaluateCaptured, h]
  · intro h
    by_cases he : err = ""
    · simp [evaluateCaptured, he, h]
    · simp [evaluateCaptured, he]
  · intro side payload he hsplit hlit
    simp [evaluateCaptured, he, hsplit, hlit]
  · intro side payload he hsplit hlit
    simp [evaluateCaptured, he, hsplit, hlit]
  · intro side payload v he hsplit hlit
    simp [evaluateCaptured, he, hsplit, hlit]
  · simp [handle_bad_output]
  · simp [handle_bad_output]
  · simp [handle_bad_output]

/-- Witness for C1 (amended) at a concrete input: stdout `"x\x023"` with
empty stderr parses to the value `3`. -/
theorem C1_witness :
    (evaluateCaptured
        (fun s => if s = "3" then (Except.ok 3 : Except LitErr Nat)
          else Except.error LitErr.syntaxError)
      "mgmt" (String.mk ['x', MGMT_VALUE_START_CHAR, '3']) "").1 =
      EvalResult.value 3 :=
  (C1_amended Nat _ _ _ _).2.2.2.2.1 ['x'] ['3'] 3 rfl (by decide) rfl

/-- The bytes transmitted by `_submit_input` always end in CRLF. -/
theorem normalizeToCRLF_ends (cdata : List Nat) :
    (normalizeToCRLF cdata).drop ((normalizeToCRLF cdata).length - 2) = [CR, LF] := by
  unfold normalizeToCRLF
  split
  · next h => exact h
  · next h =>
    rw [List.length_append]
    simp only [List.length_cons, List.length_nil]
    rw [Nat.add_sub_cancel]
    exact List.drop_left _ _

/-- C2: for every input submission ending in a newline, the transmitted
bytes end in CRLF even when the data ends only in LF; the echo read
requests exactly as many bytes as were written; a matching echo is
discarded with no warning; a mismatched echo is pushed back onto the read
buffer, restoring it exactly; a timeout leaves the read buffer unchanged. -/
theorem C2_submit_input_echo (cdata : List Nat) (c : Channel)
    (hlf : cdata.getLast? = some LF) :
    ((normalizeToCRLF cdata).drop ((normalizeToCRLF cdata).length - 2) = [CR, LF]) ∧
    ((submit_input cdata c).1.written = c.written ++ [normalizeToCRLF cdata]) ∧
    ((normalizeToCRLF cdata).length ≤ c.incoming.length →
      (c.incoming.take (normalizeToCRLF cdata).length).length =
        (normalizeToCRLF cdata).length ∧
      (c.incoming.take (normalizeToCRLF cdata).length = normalizeToCRLF cdata →
        submit_input cdata c =
          ({ incoming := c.incoming.drop (normalizeToCRLF cdata).length,
             written := c.written ++ [normalizeToCRLF cdata] }, [])) ∧
      (c.incoming.take (normalizeToCRLF cdata).length ≠ normalizeToCRLF cdata →
        submit_input cdata c =
          ({ incoming := c.incoming,
             written := c.written ++ [normalizeToCRLF cdata] },
           [SubmitLog.warnMismatch (normalizeToCRLF cdata)
              (c.incoming.take (normalizeToCRLF cdata).length)]))) ∧
    (¬ (normalizeToCRLF cdata).length ≤ c.incoming.length →
      submit_input cdata c =
        ({ incoming := c.incoming, written := c.written ++ [normalizeToCRLF cdata] },
         [SubmitLog.warnTimeout])) := by
  refine ⟨normalizeToCRLF_ends cdata, ?_, ?_, ?_⟩
  · by_cases hle : (normalizeToCRLF cdata).length ≤ c.incoming.length
    · by_cases heq : c.incoming.take (normalizeToCRLF cdata).length = normalizeToCRLF cdata
      · simp [submit_input, Channel.write, Channel.read, Channel.unread, hle, heq]
      · simp [submit_input, Channel.write, Channel.read, Channel.unread, hle, heq]
    · simp [submit_input, Channel.write, Channel.read, hle]
  · intro hle
    refine ⟨List.length_take_of_le hle, ?_, ?_⟩
    · intro heq
      simp [submit_input, Channel.write, Channel.read, hle, heq]
    · intro hne
      simp only [submit_input, Channel.write, Channel.read, Channel.unread]
      rw [if_pos hle]
      simp only [hne, if_neg, ite_false]
      rw [List.take_append_drop]
  · intro hle
    simp [submit_input, Channel.write, Channel.read, hle]

/-- Witness for C2 at a concrete input: submitting `"a\n"` with the device
echoing `"a\r\n"` consumes the echo silently. -/
theorem C2_witness :
    submit_input [97, LF] { incoming := [97, CR, LF], written := [] } =
      ({ incoming := ([97, CR, LF] : List Nat).drop (normalizeToCRLF [97, LF]).length,
         written := ([] : List (List Nat)) ++ [normalizeToCRLF [97, LF]] }, []) :=
  ((C2_submit_input_echo [97, LF] { incoming := [97, CR, LF], written := [] }
      (by decide)).2.2.1 (by decide)).2.1 (by decide)

/-- Looking up an absent id yields the default 0. -/
theorem progressGet_nil (k : String) : progressGet [] k = 0 := rfl

/-- Looking up the id at the head of the map. -/
theorem progressGet_cons_self (k : String) (t : Nat) (rest : ProgressMap) :
    progressGet ((k, t) :: rest) k = t := by
  simp [progressGet, List.find?]

/-- C6: for the inline-progress notifier, non-final calls at elapsed times
0, 50, 250 and 260 ms notify only at 0 and 250 ms (at most one notification
per 200 ms), while a call with `value = maximum` always notifies regardless
of elapsed time.  `t0` is the wall-clock time of the first call; the very
first notification always fires because the stored default time is 0 and
the wall clock is at least 200 ms past the epoch. -/
theorem C6_progress_throttle (id_ : String) (v maximum t0 : Nat)
    (hv : v ≠ maximum) (ht : 200 ≤ t0) :
    (runProgressCalls id_ maximum
        [(t0, v), (t0 + 50, v), (t0 + 250, v), (t0 + 260, v)] []).2 =
      [true, false, true, false] ∧
    (∀ pm t, (check_send_inline_progress pm id_ maximum maximum t).2 = true) := by
  constructor
  · have h1 : check_send_inline_progress [] id_ v maximum t0 = ([(id_, t0)], true) := by
      have hc : ¬(v ≠ maximum ∧ t0 - progressGet [] id_ < 200) := by
        rintro ⟨-, h⟩
        rw [progressGet_nil] at h
        omega
      simp [check_send_inline_progress, hc, progressSet]
    have h2 : check_send_inline_progress [(id_, t0)] id_ v maximum (t0 + 50) =
        ([(id_, t0)], false) := by
      have hc : v ≠ maximum ∧ (t0 + 50) - progressGet [(id_, t0)] id_ < 200 := by
        refine ⟨hv, ?_⟩
        rw [progressGet_cons_self]
        omega
      simp [check_send_inline_progress, hc]
    have h3 : check_send_inline_progress [(id_, t0)] id_ v maximum (t0 + 250) =
        ([(id_, t0 + 250)], true) := by
      have hc : ¬(v ≠ maximum ∧ (t0 + 250) - progressGet [(id_, t0)] id_ < 200) := by
        rintro ⟨-, h⟩
        rw [progressGet_cons_self] at h
        omega
      simp [check_send_inline_progress, hc, progressSet]
    have h4 : check_send_inline_progress [(id_, t0 + 250)] id_ v maximum (t0 + 260) =
        ([(id_, t0 + 250)], false) := by
      have hc : v ≠ maximum ∧ (t0 + 260) - progressGet [(id_, t0 + 250)] id_ < 200 := by
        refine ⟨hv, ?_⟩
        rw [progressGet_cons_self]
        omega
      simp [check_send_inline_progress, hc]
    simp [runProgressCalls, h1, h2, h3, h4]
  · intro pm t
    simp [check_send_inline_progress]

/-- Witness for C6 at a concrete input: first call at wall-clock 1000 ms,
value 0 of maximum 5. -/
theorem C6_witness :
    (runProgressCalls "u" 5 [(1000, 0), (1050, 0), (1250, 0), (1260, 0)] []).2 =
      [true, false, true, false] := by
  have h := C6_progress_throttle "u" 0 5 1000 (by decide) (by decide)
  simpa using h.1

/-- The reader trace of a concatenation of command streams. -/
theorem read_commands_append (l1 l2 : List InCmd) :
    read_commands (l1 ++ l2) = read_commands l1 ++ read_commands l2 := by
  induction l1 with
  | nil => simp [read_commands]
  | cons c rest ih => cases c <;> simp [read_commands, ih]

/-- Queued commands distribute over trace concatenation. -/
theorem queuedCmds_append (l1 l2 : List ReaderEffect) :
    queuedCmds (l1 ++ l2) = queuedCmds l1 ++ queuedCmds l2 := by
  simp [queuedCmds, List.filterMap_append]

/-- Interrupt-write counting distributes over trace concatenation. -/
theorem interruptWriteCount_append (l1 l2 : List ReaderEffect) :
    interruptWriteCount (l1 ++ l2) =
      interruptWriteCount l1 + interruptWriteCount l2 := by
  induction l1 with
  | nil => simp [interruptWriteCount]
  | cons e rest ih =>
    cases e <;> simp [interruptWriteCount, ih, Nat.add_assoc]

/-- The reader enqueues exactly the non-interrupt commands, in order. -/
theorem queuedCmds_read_commands (cmds : List InCmd) :
    queuedCmds (read_commands cmds) = cmds.filter (fun c => !isInterrupt c) := by
  induction cmds with
  | nil => rfl
  | cons c rest ih =>
    cases c with
    | interrupt =>
      show queuedCmds (interrupt_in_command_reading_thread ++ read_commands rest) = _
      rw [queuedCmds_append, ih]
      rfl
    | inputSubmission d =>
      show queuedCmds
        ([ReaderEffect.enqueue (InCmd.inputSubmission d)] ++ read_commands rest) = _
      rw [queuedCmds_append, ih]
      rfl
    | eofCmd =>
      show queuedCmds ([ReaderEffect.enqueue InCmd.eofCmd] ++ read_commands rest) = _
      rw [queuedCmds_append, ih]
      rfl
    | toplevel n =>
      show queuedCmds
        ([ReaderEffect.enqueue (InCmd.toplevel n)] ++ read_commands rest) = _
      rw [queuedCmds_append, ih]
      rfl

/-- An interrupt command is never placed on the command queue. -/
theorem no_enqueued_interrupt (cmds : List InCmd) :
    ReaderEffect.enqueue InCmd.interrupt ∉ read_commands cmds := by
  induction cmds with
  | nil => simp [read_commands]
  | cons c rest ih =>
    cases c <;> simp [read_commands, interrupt_in_command_reading_thread, ih]

/-- Each interrupt command causes exactly three interrupt-byte writes. -/
theorem interruptWriteCount_read_commands (cmds : List InCmd) :
    interruptWriteCount (read_commands cmds) = 3 * interruptCount cmds := by
  induction cmds with
  | nil => rfl
  | cons c rest ih =>
    cases c with
    | interrupt =>
      show interruptWriteCount
        (interrupt_in_command_reading_thread ++ read_commands rest) = _
      rw [interruptWriteCount_append, ih]
      have h1 : interruptWriteCount interrupt_in_command_reading_thread = 3 := rfl
      have h2 : interruptCount (InCmd.interrupt :: rest) = 1 + interruptCount rest := rfl
      rw [h1, h2]
      ring
    | inputSubmission d =>
      show interruptWriteCount
        ([ReaderEffect.enqueue (InCmd.inputSubmission d)] ++ read_commands rest) = _
      rw [interruptWriteCount_append, ih]
      have h1 : interruptWriteCount [ReaderEffect.enqueue (InCmd.inputSubmission d)]
          = 0 := rfl
      have h2 : interruptCount (InCmd.inputSubmission d :: rest) =
          0 + interruptCount rest := rfl
      rw [h1, h2]
      ring
    | eofCmd =>
      show interruptWriteCount
        ([ReaderEffect.enqueue InCmd.eofCmd] ++ read_commands rest) = _
      rw [interruptWriteCount_append, ih]
      have h1 : interruptWriteCount [ReaderEffect.enqueue InCmd.eofCmd] = 0 := rfl
      have h2 : interruptCount (InCmd.eofCmd :: rest) = 0 + interruptCount rest := rfl
      rw [h1, h2]
      ring
    | toplevel n =>
      show interruptWriteCount
        ([ReaderEffect.enqueue (InCmd.toplevel n)] ++ read_commands rest) = _
      rw [interruptWriteCount_append, ih]
      have h1 : interruptWriteCount [ReaderEffect.enqueue (InCmd.toplevel n)] = 0 := rfl
      have h2 : interruptCount (InCmd.toplevel n :: rest) =
          0 + interruptCount rest := rfl
      rw [h1, h2]
      ring

/-- C4: an `InterruptCommand` in the control stream is handled in the
reading thread itself — its effects (lock, three interrupt-byte writes with
100 ms sleeps) appear in place in the reader trace — and it never enters
the command queue; every other parsed command is appended to the queue in
order. -/
theorem C4_interrupt_bypasses_queue (cmds pre post : List InCmd)
    (hsplit : cmds = pre ++ InCmd.interrupt :: post) :
    read_commands cmds =
      read_commands pre ++ interrupt_in_command_reading_thread
        ++ read_commands post ∧
    queuedCmds (read_commands cmds) = cmds.filter (fun c => !isInterrupt c) ∧
    ReaderEffect.enqueue InCmd.interrupt ∉ read_commands cmds ∧
    interruptWriteCount (read_commands cmds) = 3 * interruptCount cmds := by
  subst hsplit
  refine ⟨?_, queuedCmds_read_commands _, no_enqueued_interrupt _,
    interruptWriteCount_read_commands _⟩
  rw [read_commands_append]
  simp [read_commands, List.append_assoc]

/-- Witness for C4 at a concrete input: one ordinary command followed by an
interrupt. -/
theorem C4_witness :
    read_commands [InCmd.toplevel "Run", InCmd.interrupt] =
      read_commands [InCmd.toplevel "Run"] ++ interrupt_in_command_reading_thread
        ++ read_commands [] ∧
    queuedCmds (read_commands [InCmd.toplevel "Run", InCmd.interrupt]) =
      [InCmd.toplevel "Run", InCmd.interrupt].filter (fun c => !isInterrupt c) ∧
    ReaderEffect.enqueue InCmd.interrupt ∉
      read_commands [InCmd.toplevel "Run", InCmd.interrupt] ∧
    interruptWriteCount (read_commands [InCmd.toplevel "Run", InCmd.interrupt]) =
      3 * interruptCount [InCmd.toplevel "Run", InCmd.interrupt] :=
  C4_interrupt_bypasses_queue _ [InCmd.toplevel "Run"] [] rfl

/-- C5 counterexample: `cd` invoked with two arguments raises the
validation error `UserError("%cd takes one parameter")`, but the emitted
Response's `error` field holds the `traceback.format_exc()` rendering of
that exception — a stack trace — not the bare validation message, which is
written to the stderr stream instead. -/
theorem C5_counterexample :
    ((handle_command "cd" (some "7") (some (cmd_cd ["a", "b"]))).1.map
        Response.error) =
      some (some (ErrVal.traceback (.userError "%cd takes one parameter"))) ∧
    ((handle_command "cd" (some "7") (some (cmd_cd ["a", "b"]))).1.map
        Response.error) ≠
      some (some (ErrVal.msg "%cd takes one parameter")) ∧
    (handle_command "cd" (some "7") (some (cmd_cd ["a", "b"]))).2 =
      ["%cd takes one parameter" ++ "\n"] :=
  ⟨rfl, by decide, rfl⟩

/-- C5 (amended): for every command whose handler raises a user-facing
validation failure, the validation message is written to the error stream,
and the Response's `error` field carries the formatted traceback of the
validation failure (so a stack trace is surfaced in the Response, not the
bare message); `_cmd_cd` raises exactly this validation failure whenever it
is given a number of arguments other than one. -/
theorem C5_amended (name m : String) (cmdId : Option String) :
    ((handle_command name cmdId (some (.raised (.userError m)))).1.map
        Response.error) =
      some (some (ErrVal.traceback (.userError m))) ∧
    (handle_command name cmdId (some (.raised (.userError m)))).2 = [m ++ "\n"] ∧
    (∀ args : List String, args.length ≠ 1 →
      cmd_cd args = .raised (.userError "%cd takes one parameter")) := by
  refine ⟨?_, rfl, ?_⟩
  · cases cmdId <;> simp [handle_command]
  · intro args h
    simp [cmd_cd, h]

/-- Witness for C5 (amended) at a concrete input. -/
theorem C5_witness :
    ((handle_command "cd" none (some (.raised (.userError "boom")))).1.map
        Response.error) =
      some (some (ErrVal.traceback (.userError "boom"))) ∧
    cmd_cd [] = .raised (.userError "%cd takes one parameter") :=
  ⟨(C5_amended "cd" "boom" none).1, (C5_amended "cd" "boom" none).2.2 [] (by decide)⟩

/-- Every event of the per-root loop is an evaluation query. -/
theorem remoteListLoop_events (evalList : String → Option (List (String × Nat)))
    (paths : List String) :
    ∀ e ∈ (remoteListLoop evalList paths).1, ∃ p, e = RemoteEvent.evalListQuery p := by
  induction paths with
  | nil => simp [remoteListLoop]
  | cons p rest ih =>
    intro e he
    cases h : evalList p with
    | none =>
      simp [remoteListLoop, h] at he
      exact ⟨p, he⟩
    | some sizes =>
      simp [remoteListLoop, h] at he
      rcases he with he | he
      · exact ⟨p, he⟩
      · exact ih e he

/-- When every evaluation succeeds, the per-root loop returns a result. -/
theorem remoteListLoop_total (evalList : String → Option (List (String × Nat)))
    (paths : List String) (h : ∀ p ∈ paths, (evalList p).isSome) :
    ((remoteListLoop evalList paths).2).isSome := by
  induction paths with
  | nil => simp [remoteListLoop]
  | cons p rest ih =>
    have hp := h p (by simp)
    cases hev : evalList p with
    | none => rw [hev] at hp; simp at hp
    | some sizes =>
      have := ih (fun q hq => h q (by simp [hq]))
      simp [remoteListLoop, hev, this]

/-- Last element of a doubly-consed concatenation with a singleton. -/
theorem getLast?_cons_cons_concat {α : Type} (x y c : α) (l : List α) :
    (x :: y :: (l ++ [c])).getLast? = some c := by
  rw [← List.cons_append, ← List.cons_append]
  exact List.getLast?_concat _

/-- C8 counterexample: with two roots where the second evaluation raises,
the helper-deletion script is never executed — the cleanup does not run on
partial failure of the per-root loop, so the injected helper names leak
into the device session. -/
theorem C8_counterexample :
    (list_remote_files_with_info
        (fun p => if p = "a" then some [("a/x", 1)] else none) ["a", "b"]).2 =
      none ∧
    RemoteEvent.evalListQuery "a" ∈
      (list_remote_files_with_info
        (fun p => if p = "a" then some [("a/x", 1)] else none) ["a", "b"]).1 ∧
    RemoteEvent.execScript RemoteScript.helperCleanup ∉
      (list_remote_files_with_info
        (fun p => if p = "a" then some [("a/x", 1)] else none) ["a", "b"]).1 := by
  decide

/-- C8 (amended): the helper routines are deleted afterward only when every
per-root evaluation succeeds (the cleanup script is then the last device
interaction); when an evaluation raises mid-loop the exception propagates
and the cleanup script is not executed, so the helper names leak. -/
theorem C8_amended (evalList : String → Option (List (String × Nat)))
    (paths : List String) :
    ((∀ p ∈ paths, (evalList p).isSome) →
      (list_remote_files_with_info evalList paths).1.getLast? =
        some (RemoteEvent.execScript RemoteScript.helperCleanup)) ∧
    ((list_remote_files_with_info evalList paths).2 = none →
      RemoteEvent.execScript RemoteScript.helperCleanup ∉
        (list_remote_files_with_info evalList paths).1) := by
  constructor
  · intro h
    rcases hr : (remoteListLoop evalList paths).2 with _ | recs
    · have htot := remoteListLoop_total evalList paths h
      rw [hr] at htot
      simp at htot
    · simp only [list_remote_files_with_info, hr]
      exact getLast?_cons_cons_concat _ _ _ _
  · intro hnone
    rcases hr : (remoteListLoop evalList paths).2 with _ | recs
    · simp only [list_remote_files_with_info, hr]
      intro hmem
      simp only [List.mem_cons] at hmem
      rcases hmem with hmem | hmem | hmem
      · exact RemoteScript.noConfusion (RemoteEvent.execScript.inj hmem)
      · exact RemoteScript.noConfusion (RemoteEvent.execScript.inj hmem)
      · rcases remoteListLoop_events evalList paths _ hmem with ⟨p, hp⟩
        exact RemoteEvent.noConfusion hp
    · simp only [list_remote_files_with_info, hr] at hnone
      exact Option.noConfusion hnone

/-- Witness for C8 (amended) at a concrete input: a single root whose
evaluation succeeds ends with the cleanup script. -/
theorem C8_witness :
    (list_remote_files_with_info (fun _ => some []) ["r"]).1.getLast? =
      some (RemoteEvent.execScript RemoteScript.helperCleanup) :=
  (C8_amended (fun _ => some []) ["r"]).1 (by decide)

/-- C3: for every upload or download with `allow_overwrite` false where at
least one computed target path already exists at the destination, the
handler returns the collision response carrying `existing_files` equal to
exactly the colliding target paths (with `source_paths`, `target_dir` and
`description`), leaves the progress state untouched and invokes no per-file
transfer operation. -/
theorem C3_collision_aborts
    (normJoin : String → String → String) (pathExists remoteExists : String → Bool)
    (transferFile : String → String → Nat) (supportsDirs : Bool)
    (files : List FileRec) (cmd : TransferCmd) (now : Nat) (pm : ProgressMap)
    (hov : cmd.allow_overwrite = false) :
    (∀ items,
      downloadItems normJoin (rstripChar '\\' (rstripChar '/' cmd.target_dir)) files =
        some items →
      (items.map TransferItem.target).filter pathExists ≠ [] →
      cmd_download normJoin pathExists transferFile files cmd now pm =
        (.collision ((items.map TransferItem.target).filter pathExists)
          cmd.source_paths cmd.target_dir cmd.description, pm) ∧
      (cmd_download normJoin pathExists transferFile files cmd now pm).1.invocations
        = []) ∧
    (∀ items,
      ((strStartsWith cmd.target_dir "/" ∨ ¬supportsDirs) ∧
        (¬strEndsWith cmd.target_dir "/" ∨ cmd.target_dir = "/")) →
      uploadItems cmd.target_dir files = some items →
      get_existing_remote_files remoteExists (items.map TransferItem.target) ≠ [] →
      cmd_upload supportsDirs remoteExists transferFile files cmd now pm =
        (.collision
          (get_existing_remote_files remoteExists (items.map TransferItem.target))
          cmd.source_paths cmd.target_dir cmd.description, pm) ∧
      (cmd_upload supportsDirs remoteExists transferFile files cmd now pm).1.invocations
        = []) := by
  constructor
  · intro items hi hex
    have hres : cmd_download normJoin pathExists transferFile files cmd now pm =
        (.collision ((items.map TransferItem.target).filter pathExists)
          cmd.source_paths cmd.target_dir cmd.description, pm) := by
      simp only [cmd_download, hi]
      rw [if_pos ⟨by simp [hov], hex⟩]
    refine ⟨hres, ?_⟩
    rw [hres]
    rfl
  · intro items hpre hi hex
    have hres : cmd_upload supportsDirs remoteExists transferFile files cmd now pm =
        (.collision
          (get_existing_remote_files remoteExists (items.map TransferItem.target))
          cmd.source_paths cmd.target_dir cmd.description, pm) := by
      simp only [cmd_upload]
      rw [if_neg (not_not.mpr hpre)]
      simp only [hi]
      rw [if_pos ⟨by simp [hov], hex⟩]
    refine ⟨hres, ?_⟩
    rw [hres]
    rfl

/-- Witness for C3 at a concrete input: downloading one remote file onto an
existing local target with `allow_overwrite` false aborts with that path as
the only colliding entry. -/
theorem C3_witness :
    cmd_download (fun a b => a ++ "/" ++ b) (fun _ => true) (fun _ _ => 0)
      [{ path := "/d/f.txt", size := 4, original_context := "/d" }]
      { source_paths := ["/d/f.txt"], target_dir := "/t", allow_overwrite := false,
        description := "files", id := "c1" } 1000 [] =
      (TransferOutcome.collision ["/t/f.txt"] ["/d/f.txt"] "/t" "files", []) :=
  ((C3_collision_aborts (fun a b => a ++ "/" ++ b) (fun _ => true) (fun _ => true)
      (fun _ _ => 0) true
      [{ path := "/d/f.txt", size := 4, original_context := "/d" }]
      { source_paths := ["/d/f.txt"], target_dir := "/t", allow_overwrite := false,
        description := "files", id := "c1" } 1000 [] rfl).1
    [{ source := "/d/f.txt", target := "/t/f.txt", size := 4 }]
    (by decide) (by decide)).1

/-- When every per-file write count matches the enumerated size, the loop
transfers all files in order. -/
theorem runTransferLoop_ok (tf : String → String → Nat) (items : List TransferItem)
    (h : ∀ it ∈ items, tf it.source it.target = it.size) :
    runTransferLoop tf items =
      (items.map (fun it => (it.source, it.target)), true) := by
  induction items with
  | nil => rfl
  | cons it rest ih =>
    have hit := h it (by simp)
    have hrest := ih (fun x hx => h x (by simp [hx]))
    simp [runTransferLoop, hit, hrest]

/-- A size mismatch aborts the loop right after the failing file: earlier
files were transferred once each, the failing file was attempted once, and
no later file is touched. -/
theorem runTransferLoop_fail (tf : String → String → Nat)
    (preI : List TransferItem) (bad : TransferItem) (postI : List TransferItem)
    (hpre : ∀ it ∈ preI, tf it.source it.target = it.size)
    (hbad : tf bad.source bad.target ≠ bad.size) :
    runTransferLoop tf (preI ++ bad :: postI) =
      (preI.map (fun it => (it.source, it.target)) ++ [(bad.source, bad.target)],
        false) := by
  induction preI with
  | nil => simp [runTransferLoop, hbad]
  | cons it rest ih =>
    have hit := hpre it (by simp)
    have hrest := ih (fun x hx => hpre x (by simp [hx]))
    simp [runTransferLoop, hit, hrest]

/-- C7: during every upload and download, files are transferred one at a
time in order; after each file the written byte count is asserted equal to
the file's enumerated size; when all match the command completes having
invoked each file exactly once, and on the first mismatch the assertion is
fatal — the failing file is attempted once and never retried, and no later
file is transferred.  The only premise beyond the source's own asserts is
the condition under which the transfer loop runs at all: overwrite is
allowed or no destination collision exists. -/
theorem C7_transfer_size_assert
    (normJoin : String → String → String) (pathExists remoteExists : String → Bool)
    (transferFile : String → String → Nat) (supportsDirs : Bool)
    (files : List FileRec) (cmd : TransferCmd) (now : Nat) (pm : ProgressMap) :
    (∀ items,
      downloadItems normJoin (rstripChar '\\' (rstripChar '/' cmd.target_dir)) files =
        some items →
      (cmd.allow_overwrite = true ∨
        (items.map TransferItem.target).filter pathExists = []) →
      ((∀ it ∈ items, transferFile it.source it.target = it.size) →
        (cmd_download normJoin pathExists transferFile files cmd now pm).1 =
          .completed (items.map (fun it => (it.source, it.target)))) ∧
      (∀ preI bad postI, items = preI ++ bad :: postI →
        (∀ it ∈ preI, transferFile it.source it.target = it.size) →
        transferFile bad.source bad.target ≠ bad.size →
        (cmd_download normJoin pathExists transferFile files cmd now pm).1 =
          .assertFailed (preI.map (fun it => (it.source, it.target)) ++
            [(bad.source, bad.target)]))) ∧
    (∀ items,
      ((strStartsWith cmd.target_dir "/" ∨ ¬supportsDirs) ∧
        (¬strEndsWith cmd.target_dir "/" ∨ cmd.target_dir = "/")) →
      uploadItems cmd.target_dir files = some items →
      (cmd.allow_overwrite = true ∨
        get_existing_remote_files remoteExists (items.map TransferItem.target) = []) →
      ((∀ it ∈ items, transferFile it.source it.target = it.size) →
        (cmd_upload supportsDirs remoteExists transferFile files cmd now pm).1 =
          .completed (items.map (fun it => (it.source, it.target)))) ∧
      (∀ preI bad postI, items = preI ++ bad :: postI →
        (∀ it ∈ preI, transferFile it.source it.target = it.size) →
        transferFile bad.source bad.target ≠ bad.size →
        (cmd_upload supportsDirs remoteExists transferFile files cmd now pm).1 =
          .assertFailed (preI.map (fun it => (it.source, it.target)) ++
            [(bad.source, bad.target)]))) := by
  constructor
  · intro items hi hnc
    have hnc2 : ¬(¬cmd.allow_overwrite ∧
        (items.map TransferItem.target).filter pathExists ≠ []) := by
      rintro ⟨hno, hne⟩
      rcases hnc with h | h
      · exact hno h
      · exact hne h
    constructor
    · intro hall
      have hl := runTransferLoop_ok transferFile items hall
      simp only [cmd_download, hi]
      rw [if_neg hnc2]
      simp [hl]
    · intro preI bad postI hsplit hpre hbad
      have hl := runTransferLoop_fail transferFile preI bad postI hpre hbad
      subst hsplit
      simp only [cmd_download, hi]
      rw [if_neg hnc2]
      simp [hl]
  · intro items hprecond hi hnc
    have hnc2 : ¬(¬cmd.allow_overwrite ∧
        get_existing_remote_files remoteExists (items.map TransferItem.target) ≠ []) := by
      rintro ⟨hno, hne⟩
      rcases hnc with h | h
      · exact hno h
      · exact hne h
    constructor
    · intro hall
      have hl := runTransferLoop_ok transferFile items hall
      simp only [cmd_upload]
      rw [if_neg (not_not.mpr hprecond)]
      simp only [hi]
      rw [if_neg hnc2]
      simp [hl]
    · intro preI bad postI hsplit hpre hbad
      have hl := runTransferLoop_fail transferFile preI bad postI hpre hbad
      subst hsplit
      simp only [cmd_upload]
      rw [if_neg (not_not.mpr hprecond)]
      simp only [hi]
      rw [if_neg hnc2]
      simp [hl]

/-- Witness for C7 at a concrete input: two files where the second write
count mismatches — the first is transferred, the second attempted once, the
command fails the assertion. -/
theorem C7_witness :
    (cmd_download (fun a b => a ++ "/" ++ b) (fun _ => false)
      (fun s _ => if s = "/d/a" then 1 else 0)
      [{ path := "/d/a", size := 1, original_context := "/d" },
       { path := "/d/b", size := 2, original_context := "/d" }]
      { source_paths := ["/d/a", "/d/b"], target_dir := "/t",
        allow_overwrite := true, description := "files", id := "c2" }
      1000 []).1 =
      TransferOutcome.assertFailed [("/d/a", "/t/a"), ("/d/b", "/t/b")] :=
  ((C7_transfer_size_assert (fun a b => a ++ "/" ++ b) (fun _ => false)
      (fun _ => false) (fun s _ => if s = "/d/a" then 1 else 0) true
      [{ path := "/d/a", size := 1, original_context := "/d" },
       { path := "/d/b", size := 2, original_context := "/d" }]
      { source_paths := ["/d/a", "/d/b"], target_dir := "/t",
        allow_overwrite := true, description := "files", id := "c2" }
      1000 []).1
    [{ source := "/d/a", target := "/t/a", size := 1 },
     { source := "/d/b", target := "/t/b", size := 2 }]
    (by decide) (Or.inl rfl)).2
    [{ source := "/d/a", target := "/t/a", size := 1 }]
    { source := "/d/b", target := "/t/b", size := 2 } [] (by decide)
    (by decide) (by decide)

/-- C9 counterexample: a completed upload leaves its command id's entry in
the `_progress_times` mapping — the entry is not removed when the command
completes. -/
theorem C9_counterexample :
    cmd_upload true (fun _ => false) (fun _ _ => 1)
      [{ path := "/d/f", size := 1, original_context := "/d" }]
      { source_paths := ["/d/f"], target_dir := "/t", allow_overwrite := true,
        description := "d", id := "i" } 1000 [] =
      (TransferOutcome.completed [("/d/f", "/t/f")], [("i", 1000)]) ∧
    ((cmd_upload true (fun _ => false) (fun _ _ => 1)
      [{ path := "/d/f", size := 1, original_context := "/d" }]
      { source_paths := ["/d/f"], target_dir := "/t", allow_overwrite := true,
        description := "d", id := "i" } 1000 []).2.find?
        (fun p => p.1 = "i")) = some ("i", 1000) := by
  constructor
  · decide
  · decide

/-- A `_progress_times` update never removes another id's entry. -/
theorem find?_isSome_progressSet (pm : ProgressMap) (id_ k : String) (t : Nat)
    (h : (pm.find? (fun p => p.1 = k)).isSome = true) :
    ((progressSet pm id_ t).find? (fun p => p.1 = k)).isSome = true := by
  induction pm with
  | nil => simp [List.find?] at h
  | cons p rest ih =>
    by_cases hp : p.1 = id_
    · rw [show progressSet (p :: rest) id_ t = (id_, t) :: rest from by
        simp [progressSet, hp]]
      by_cases hik : id_ = k
      · rw [List.find?_cons_of_pos _ (by simp [hik])]
        rfl
      · have hpk : ¬(p.1 = k) := fun he => hik (hp.symm.trans he)
        rw [List.find?_cons_of_neg _ (by simp [hpk])] at h
        rw [List.find?_cons_of_neg _ (by simp [hik])]
        exact h
    · rw [show progressSet (p :: rest) id_ t = p :: progressSet rest id_ t from by
        simp [progressSet, hp]]
      by_cases hpk : p.1 = k
      · rw [List.find?_cons_of_pos _ (by simp [hpk])]
        rfl
      · rw [List.find?_cons_of_neg _ (by simp [hpk])] at h
        rw [List.find?_cons_of_neg _ (by simp [hpk])]
        exact ih h

/-- `_check_send_inline_progress` never removes an entry. -/
theorem find?_isSome_check_send (pm : ProgressMap) (id_ k : String)
    (v m now : Nat) (h : (pm.find? (fun p => p.1 = k)).isSome = true) :
    (((check_send_inline_progress pm id_ v m now).1).find?
      (fun p => p.1 = k)).isSome = true := by
  by_cases hc : (v ≠ m ∧ now - progressGet pm id_ < 200)
  · simp only [check_send_inline_progress]
    rw [if_pos hc]
    exact h
  · simp only [check_send_inline_progress]
    rw [if_neg hc]
    exact find?_isSome_progressSet pm id_ k now h

/-- C9 (amended): the `_progress_times` mapping is never garbage-collected:
entries are only inserted or updated by upload/download commands, never
removed, so an entry present before a command is still present after it —
the mapping outlives the command and persists for the backend session. -/
theorem C9_amended
    (normJoin : String → String → String) (pathExists remoteExists : String → Bool)
    (transferFile : String → String → Nat) (supportsDirs : Bool)
    (files : List FileRec) (cmd : TransferCmd) (now : Nat) (pm : ProgressMap)
    (k : String) (hk : (pm.find? (fun p => p.1 = k)).isSome = true) :
    (((cmd_upload supportsDirs remoteExists transferFile files cmd now pm).2).find?
      (fun p => p.1 = k)).isSome = true ∧
    (((cmd_download normJoin pathExists transferFile files cmd now pm).2).find?
      (fun p => p.1 = k)).isSome = true := by
  constructor
  · simp only [cmd_upload]
    split
    · exact hk
    · split
      · exact hk
      · split
        · exact hk
        · exact find?_isSome_check_send pm cmd.id k 0 _ now hk
  · simp only [cmd_download]
    split
    · exact hk
    · split
      · exact hk
      · exact find?_isSome_check_send pm cmd.id k 0 _ now hk

/-- Witness for C9 (amended) at a concrete input: an entry for another
command id survives a subsequent upload and download. -/
theorem C9_witness :
    (((cmd_upload true (fun _ => false) (fun _ _ => 0) []
        { source_paths := [], target_dir := "/", allow_overwrite := true,
          description := "", id := "i" } 0 [("a", 5)]).2).find?
      (fun p => p.1 = "a")).isSome = true ∧
    (((cmd_download (fun a b => a ++ "/" ++ b) (fun _ => false) (fun _ _ => 0) []
        { source_paths := [], target_dir := "/", allow_overwrite := true,
          description := "", id := "i" } 0 [("a", 5)]).2).find?
      (fun p => p.1 = "a")).isSome = true :=
  C9_amended (fun a b => a ++ "/" ++ b) (fun _ => false) (fun _ => false)
    (fun _ _ => 0) true []
    { source_paths := [], target_dir := "/", allow_overwrite := true,
      description := "", id := "i" } 0 [("a", 5)] "a" (by decide)

/-- Emitted bytes of a concatenation of action lists. -/
theorem emitsOf_append (who : Bool) (l1 l2 : List LAct) :
    emitsOf who (l1 ++ l2) = emitsOf who l1 ++ emitsOf who l2 := by
  induction l1 with
  | nil => rfl
  | cons a rest ih => cases a <;> simp [emitsOf, ih]

/-- Facts about one step through a list by index. -/
theorem drop_cons_facts {α : Type} (l : List α) (k : Nat) (a : α) (t : List α)
    (h : l.drop k = a :: t) :
    l.drop (k + 1) = t ∧ k + 1 ≤ l.length ∧ l.take (k + 1) = l.take k ++ [a] := by
  induction k generalizing l with
  | zero =>
    simp only [List.drop_zero] at h
    subst h
    simp
  | succ k ih =>
    cases l with
    | nil => simp at h
    | cons c l2 =>
      rw [List.drop_succ_cons] at h
      obtain ⟨h1, h2, h3⟩ := ih l2 h
      refine ⟨?_, ?_, ?_⟩
      · rw [List.drop_succ_cons]
        exact h1
      · simp only [List.length_cons]
        omega
      · rw [List.take_succ_cons, List.take_succ_cons, h3]
        rfl

/-- The bytes a submission body emits, in order. -/
theorem emitsOf_submitBody (who : Bool) (bdata : List Nat) :
    emitsOf who (submitBody bdata) = bdata.map (fun b => (who, b)) := by
  induction bdata with
  | nil => rfl
  | cons b rest ih =>
    have hstep : emitsOf who (submitBody (b :: rest)) =
        (who, b) :: emitsOf who (submitBody rest) := rfl
    rw [hstep, ih]
    rfl

/-- The interrupt body takes no lock operations. -/
theorem lockFreeBody_interrupt : lockFreeBody interruptBody := by
  intro a ha
  refine ⟨?_, ?_⟩ <;> intro hEq <;> subst hEq <;> simp [interruptBody] at ha

/-- The submission body takes no lock operations. -/
theorem lockFreeBody_submit (bdata : List Nat) : lockFreeBody (submitBody bdata) := by
  intro a ha
  simp only [submitBody, List.mem_append, List.mem_map, List.mem_singleton] at ha
  rcases ha with ⟨b, _, rfl⟩ | rfl
  · exact ⟨fun h => LAct.noConfusion h, fun h => LAct.noConfusion h⟩
  · exact ⟨fun h => LAct.noConfusion h, fun h => LAct.noConfusion h⟩

/-- An empty remainder means the thread finished its critical section. -/
theorem remOfPhase_eq_nil (body : List LAct) (p : LPhase)
    (h : remOfPhase body p = []) : p = LPhase.done := by
  cases p
  · simp [remOfPhase, critical] at h
  · simp [remOfPhase] at h
  · rfl

/-- One enabled scheduler step preserves the mutual-exclusion invariant. -/
theorem lstep_preserves (b0 b1 : List LAct)
    (hf0 : lockFreeBody b0) (hf1 : lockFreeBody b1)
    (who : Bool) (s s2 : LSys) (hs : lstep who s = some s2)
    (hinv : LInv b0 b1 s) : LInv b0 b1 s2 := by
  obtain ⟨p0, p1, hok0, hok1, hr0, hr1, hl, htr⟩ := hinv
  cases who with
  | true =>
    have hrem : s.rem true = s.r0 := rfl
    unfold lstep at hs
    rw [hrem, hr0] at hs
    cases p0 with
    | done => exact Option.noConfusion ((rfl : (none : Option LSys) = none).symm.trans hs)
    | ns =>
      cases p1 with
      | mid j =>
        have hl2 : s.lock = some false := hl
        rw [hl2] at hs
        exact Option.noConfusion ((rfl : (none : Option LSys) = none).symm.trans hs)
      | ns =>
        have hl2 : s.lock = none := hl
        have htr2 : s.tr = [] := htr
        rw [hl2] at hs
        have hs2 : { s.setRem true (b0 ++ [LAct.rel]) with lock := some true } = s2 :=
          Option.some.inj hs
        subst hs2
        exact ⟨.mid 0, .ns, Nat.zero_le _, trivial, rfl, hr1, rfl, htr2⟩
      | done =>
        have hl2 : s.lock = none := hl
        have htr2 : s.tr = emitsOf false b1 := htr
        rw [hl2] at hs
        have hs2 : { s.setRem true (b0 ++ [LAct.rel]) with lock := some true } = s2 :=
          Option.some.inj hs
        subst hs2
        refine ⟨.mid 0, .done, Nat.zero_le _, trivial, rfl, hr1, rfl, ?_⟩
        show s.tr = emitsOf false b1 ++ emitsOf true (b0.take 0)
        rw [htr2]
        simp [emitsOf]
    | mid k =>
      have hok0k : k ≤ b0.length := hok0
      rw [show remOfPhase b0 (LPhase.mid k) = b0.drop k ++ [LAct.rel] from rfl] at hs
      rcases hd : b0.drop k with _ | ⟨a, t⟩ <;> rw [hd] at hs
      · -- next action is the release
        have hlen : b0.length ≤ k := List.drop_eq_nil_iff.mp hd
        cases p1 with
        | mid j => exact (hl : False).elim
        | ns =>
          have hl2 : s.lock = some true := hl
          have htr2 : s.tr = emitsOf true (b0.take k) := htr
          rw [hl2] at hs
          have hs2 : { s.setRem true [] with lock := none } = s2 :=
            Option.some.inj hs
          subst hs2
          refine ⟨.done, .ns, trivial, trivial, rfl, hr1, rfl, ?_⟩
          show s.tr = emitsOf true b0
          rw [htr2, List.take_of_length_le hlen]
        | done =>
          have hl2 : s.lock = some true := hl
          have htr2 : s.tr = emitsOf false b1 ++ emitsOf true (b0.take k) := htr
          rw [hl2] at hs
          have hs2 : { s.setRem true [] with lock := none } = s2 :=
            Option.some.inj hs
          subst hs2
          refine ⟨.done, .done, trivial, trivial, rfl, hr1, rfl, ?_⟩
          show s.tr = emitsOf true b0 ++ emitsOf false b1 ∨
            s.tr = emitsOf false b1 ++ emitsOf true b0
          right
          rw [htr2, List.take_of_length_le hlen]
      · -- next action is a body action
        have ha : a ∈ b0 := List.drop_subset _ _ (by rw [hd]; exact List.mem_cons_self a t)
        obtain ⟨hdrop1, hlen1, htake1⟩ := drop_cons_facts b0 k a t hd
        cases a with
        | acq => exact absurd rfl (hf0 _ ha).1
        | rel => exact absurd rfl (hf0 _ ha).2
        | emit b =>
          have hs2 : { s.setRem true (t ++ [LAct.rel]) with tr := s.tr ++ [(true, b)] }
              = s2 := Option.some.inj hs
          subst hs2
          cases p1 with
          | mid j => exact (hl : False).elim
          | ns =>
            have hl2 : s.lock = some true := hl
            have htr2 : s.tr = emitsOf true (b0.take k) := htr
            refine ⟨.mid (k + 1), .ns, hlen1, trivial, ?_, hr1, hl2, ?_⟩
            · show t ++ [LAct.rel] = b0.drop (k + 1) ++ [LAct.rel]
              rw [hdrop1]
            · show s.tr ++ [(true, b)] = emitsOf true (b0.take (k + 1))
              rw [htake1, emitsOf_append, htr2]
              rfl
          | done =>
            have hl2 : s.lock = some true := hl
            have htr2 : s.tr = emitsOf false b1 ++ emitsOf true (b0.take k) := htr
            refine ⟨.mid (k + 1), .done, hlen1, trivial, ?_, hr1, hl2, ?_⟩
            · show t ++ [LAct.rel] = b0.drop (k + 1) ++ [LAct.rel]
              rw [hdrop1]
            · show s.tr ++ [(true, b)] =
                emitsOf false b1 ++ emitsOf true (b0.take (k + 1))
              rw [htake1, emitsOf_append, htr2, List.append_assoc]
              rfl
        | pause =>
          have hs2 : s.setRem true (t ++ [LAct.rel]) = s2 := Option.some.inj hs
          subst hs2
          cases p1 with
          | mid j => exact (hl : False).elim
          | ns =>
            have hl2 : s.lock = some true := hl
            have htr2 : s.tr = emitsOf true (b0.take k) := htr
            refine ⟨.mid (k + 1), .ns, hlen1, trivial, ?_, hr1, hl2, ?_⟩
            · show t ++ [LAct.rel] = b0.drop (k + 1) ++ [LAct.rel]
              rw [hdrop1]
            · show s.tr = emitsOf true (b0.take (k + 1))
              rw [htake1, emitsOf_append, htr2]
              simp [emitsOf]
          | done =>
            have hl2 : s.lock = some true := hl
            have htr2 : s.tr = emitsOf false b1 ++ emitsOf true (b0.take k) := htr
            refine ⟨.mid (k + 1), .done, hlen1, trivial, ?_, hr1, hl2, ?_⟩
            · show t ++ [LAct.rel] = b0.drop (k + 1) ++ [LAct.rel]
              rw [hdrop1]
            · show s.tr = emitsOf false b1 ++ emitsOf true (b0.take (k + 1))
              rw [htake1, emitsOf_append, htr2]
              simp [emitsOf]
  | false =>
    have hrem : s.rem false = s.r1 := rfl
    unfold lstep at hs
    rw [hrem, hr1] at hs
    cases p1 with
    | done => exact Option.noConfusion ((rfl : (none : Option LSys) = none).symm.trans hs)
    | ns =>
      cases p0 with
      | mid j =>
        have hl2 : s.lock = some true := hl
        rw [hl2] at hs
        exact Option.noConfusion ((rfl : (none : Option LSys) = none).symm.trans hs)
      | ns =>
        have hl2 : s.lock = none := hl
        have htr2 : s.tr = [] := htr
        rw [hl2] at hs
        have hs2 : { s.setRem false (b1 ++ [LAct.rel]) with lock := some false } = s2 :=
          Option.some.inj hs
        subst hs2
        exact ⟨.ns, .mid 0, trivial, Nat.zero_le _, hr0, rfl, rfl, htr2⟩
      | done =>
        have hl2 : s.lock = none := hl
        have htr2 : s.tr = emitsOf true b0 := htr
        rw [hl2] at hs
        have hs2 : { s.setRem false (b1 ++ [LAct.rel]) with lock := some false } = s2 :=
          Option.some.inj hs
        subst hs2
        refine ⟨.done, .mid 0, trivial, Nat.zero_le _, hr0, rfl, rfl, ?_⟩
        show s.tr = emitsOf true b0 ++ emitsOf false (b1.take 0)
        rw [htr2]
        simp [emitsOf]
    | mid k =>
      have hok1k : k ≤ b1.length := hok1
      rw [show remOfPhase b1 (LPhase.mid k) = b1.drop k ++ [LAct.rel] from rfl] at hs
      rcases hd : b1.drop k with _ | ⟨a, t⟩ <;> rw [hd] at hs
      · have hlen : b1.length ≤ k := List.drop_eq_nil_iff.mp hd
        cases p0 with
        | mid j => exact (hl : False).elim
        | ns =>
          have hl2 : s.lock = some false := hl
          have htr2 : s.tr = emitsOf false (b1.take k) := htr
          rw [hl2] at hs
          have hs2 : { s.setRem false [] with lock := none } = s2 :=
            Option.some.inj hs
          subst hs2
          refine ⟨.ns, .done, trivial, trivial, hr0, rfl, rfl, ?_⟩
          show s.tr = emitsOf false b1
          rw [htr2, List.take_of_length_le hlen]
        | done =>
          have hl2 : s.lock = some false := hl
          have htr2 : s.tr = emitsOf true b0 ++ emitsOf false (b1.take k) := htr
          rw [hl2] at hs
          have hs2 : { s.setRem false [] with lock := none } = s2 :=
            Option.some.inj hs
          subst hs2
          refine ⟨.done, .done, trivial, trivial, hr0, rfl, rfl, ?_⟩
          show s.tr = emitsOf true b0 ++ emitsOf false b1 ∨
            s.tr = emitsOf false b1 ++ emitsOf true b0
          left
          rw [htr2, List.take_of_length_le hlen]
      · have ha : a ∈ b1 := List.drop_subset _ _ (by rw [hd]; exact List.mem_cons_self a t)
        obtain ⟨hdrop1, hlen1, htake1⟩ := drop_cons_facts b1 k a t hd
        cases a with
        | acq => exact absurd rfl (hf1 _ ha).1
        | rel => exact absurd rfl (hf1 _ ha).2
        | emit b =>
          have hs2 : { s.setRem false (t ++ [LAct.rel]) with tr := s.tr ++ [(false, b)] }
              = s2 := Option.some.inj hs
          subst hs2
          cases p0 with
          | mid j => exact (hl : False).elim
          | ns =>
            have hl2 : s.lock = some false := hl
            have htr2 : s.tr = emitsOf false (b1.take k) := htr
            refine ⟨.ns, .mid (k + 1), trivial, hlen1, hr0, ?_, hl2, ?_⟩
            · show t ++ [LAct.rel] = b1.drop (k + 1) ++ [LAct.rel]
              rw [hdrop1]
            · show s.tr ++ [(false, b)] = emitsOf false (b1.take (k + 1))
              rw [htake1, emitsOf_append, htr2]
              rfl
          | done =>
            have hl2 : s.lock = some false := hl
            have htr2 : s.tr = emitsOf true b0 ++ emitsOf false (b1.take k) := htr
            refine ⟨.done, .mid (k + 1), trivial, hlen1, hr0, ?_, hl2, ?_⟩
            · show t ++ [LAct.rel] = b1.drop (k + 1) ++ [LAct.rel]
              rw [hdrop1]
            · show s.tr ++ [(false, b)] =
                emitsOf true b0 ++ emitsOf false (b1.take (k + 1))
              rw [htake1, emitsOf_append, htr2, List.append_assoc]
              rfl
        | pause =>
          have hs2 : s.setRem false (t ++ [LAct.rel]) = s2 := Option.some.inj hs
          subst hs2
          cases p0 with
          | mid j => exact (hl : False).elim
          | ns =>
            have hl2 : s.lock = some false := hl
            have htr2 : s.tr = emitsOf false (b1.take k) := htr
            refine ⟨.ns, .mid (k + 1), trivial, hlen1, hr0, ?_, hl2, ?_⟩
            · show t ++ [LAct.rel] = b1.drop (k + 1) ++ [LAct.rel]
              rw [hdrop1]
            · show s.tr = emitsOf false (b1.take (k + 1))
              rw [htake1, emitsOf_append, htr2]
              simp [emitsOf]
          | done =>
            have hl2 : s.lock = some false := hl
            have htr2 : s.tr = emitsOf true b0 ++ emitsOf false (b1.take k) := htr
            refine ⟨.done, .mid (k + 1), trivial, hlen1, hr0, ?_, hl2, ?_⟩
            · show t ++ [LAct.rel] = b1.drop (k + 1) ++ [LAct.rel]
              rw [hdrop1]
            · show s.tr = emitsOf true b0 ++ emitsOf false (b1.take (k + 1))
              rw [htake1, emitsOf_append, htr2]
              simp [emitsOf]

/-- Running a valid schedule preserves the invariant. -/
theorem lrun_preserves (b0 b1 : List LAct)
    (hf0 : lockFreeBody b0) (hf1 : lockFreeBody b1)
    (sched : List Bool) (s s2 : LSys) (hrun : lrun sched s = some s2)
    (hinv : LInv b0 b1 s) : LInv b0 b1 s2 := by
  induction sched generalizing s with
  | nil =>
    simp only [lrun, Option.some.injEq] at hrun
    subst hrun
    exact hinv
  | cons w ws ih =>
    simp only [lrun] at hrun
    cases hstep : lstep w s with
    | none => rw [hstep] at hrun; exact Option.noConfusion hrun
    | some smid =>
      rw [hstep] at hrun
      exact ih smid hrun (lstep_preserves b0 b1 hf0 hf1 w s smid hstep hinv)

/-- C10: all transport writes are serialized by the single writer lock —
in every valid complete interleaving of the interrupt sequence with an
input submission, the transport sees one thread's bytes as one contiguous
block followed by the other's: the three interrupt bytes are never
interleaved inside the submission's byte sequence. -/
theorem C10_writer_lock_serializes (bdata : List Nat) (sched : List Bool) (s2 : LSys)
    (hrun : lrun sched (initLSys bdata) = some s2)
    (hdone0 : s2.r0 = []) (hdone1 : s2.r1 = []) :
    (s2.tr = emitsOf true interruptBody ++ emitsOf false (submitBody bdata) ∨
     s2.tr = emitsOf false (submitBody bdata) ++ emitsOf true interruptBody) ∧
    emitsOf true interruptBody = [(true, 3), (true, 3), (true, 3)] ∧
    emitsOf false (submitBody bdata) = bdata.map (fun b => (false, b)) := by
  have hinv0 : LInv interruptBody (submitBody bdata) (initLSys bdata) :=
    ⟨.ns, .ns, trivial, trivial, rfl, rfl, rfl, rfl⟩
  have hinv := lrun_preserves interruptBody (submitBody bdata)
    lockFreeBody_interrupt (lockFreeBody_submit bdata) sched _ s2 hrun hinv0
  obtain ⟨p0, p1, _, _, hr0, hr1, _, htr⟩ := hinv
  have hp0 : p0 = LPhase.done := remOfPhase_eq_nil _ _ (hr0.symm.trans hdone0)
  have hp1 : p1 = LPhase.done := remOfPhase_eq_nil _ _ (hr1.symm.trans hdone1)
  subst hp0
  subst hp1
  exact ⟨htr, rfl, emitsOf_submitBody false bdata⟩

/-- Witness for C10 at a concrete input: the schedule that runs the whole
interrupt sequence first and then the submission of bytes `[1, 2]`. -/
theorem C10_witness :
    ([((true : Bool), (3 : Nat)), (true, 3), (true, 3), (false, 1), (false, 2)] =
        emitsOf true interruptBody ++ emitsOf false (submitBody [1, 2]) ∨
     [((true : Bool), (3 : Nat)), (true, 3), (true, 3), (false, 1), (false, 2)] =
        emitsOf false (submitBody [1, 2]) ++ emitsOf true interruptBody) ∧
    emitsOf true interruptBody = [(true, 3), (true, 3), (true, 3)] ∧
    emitsOf false (submitBody [1, 2]) = [1, 2].map (fun b => (false, b)) :=
  C10_writer_lock_serializes [1, 2]
    [true, true, true, true, true, true, true, false, false, false, false, false]
    { r0 := [], r1 := [], lock := none,
      tr := [(true, 3), (true, 3), (true, 3), (false, 1), (false, 2)] }
    (by decide) rfl rfl

end ThonnyMP
